import Mathlib

/-!
Verification of the cargo-txt transformation pipeline.

Shallow embedding of the core of `cargo-txt` (HTML→Markdown converter,
item-index builder, path parser/resolver, and type-model renderer) together
with proofs settling the frozen specification claims.

Conventions of the embedding:
* The HTML document reader is an external collaborator (spec §2): the
  functions here operate on the already-parsed node tree
  (`Element {name, attrs, children} | Text s`), mirroring how the Rust code
  only uses indexed element/attribute/text access and CSS-style selection
  on a `scraper::Html` value.
* Rust `String`/`&str` values are Lean `String`s; character-level loops are
  translated to structurally recursive functions on `List Char`.
* `HashMap<String, String>` is modelled as an association list whose
  `insert` overwrites the existing binding of a key in place, matching the
  observable `get`/`len` behaviour of `std::collections::HashMap`.
* Fallible Rust functions returning `anyhow::Result` become
  `Except String`.
-/

set_option maxRecDepth 200000

namespace CargoTxt

/-- Decidable equality of `Except` results, for evaluating the embedded
fallible operations on concrete inputs. -/
instance {ε α : Type} [DecidableEq ε] [DecidableEq α] : DecidableEq (Except ε α) := fun x y =>
  match x, y with
  | .ok a, .ok b =>
    if h : a = b then isTrue (by rw [h]) else isFalse (fun k => by cases k; exact h rfl)
  | .error a, .error b =>
    if h : a = b then isTrue (by rw [h]) else isFalse (fun k => by cases k; exact h rfl)
  | .ok _, .error _ => isFalse (fun k => by cases k)
  | .error _, .ok _ => isFalse (fun k => by cases k)

/-- Substring test, the embedding of Rust `str::contains(&str)`. -/
def strContains (s sub : String) : Bool :=
  decide (sub.toList <:+: s.toList)

/-- Embedding of HashMap insert on the association-list model: overwrite the binding
of the key if present, otherwise append a new binding. -/
def hmInsert (k v : String) : List (String × String) → List (String × String)
  | [] => [(k, v)]
  | (k', v') :: rest => if k' = k then (k, v) :: rest else (k', v') :: hmInsert k v rest

/-- Embedding of HashMap get on the association-list model. -/
def hmGet (k : String) : List (String × String) → Option String
  | [] => none
  | (k', v') :: rest => if k' = k then some v' else hmGet k rest

/-! ## `html2md::process_text_links`

The Rust function walks the characters with a peekable iterator.  The inner
label loop (`while let Some(next) = chars.peek()` with `bracket_count`)
becomes `scanLabel`, the reference-consuming loop (`for ref_next in
chars.by_ref()` with `ref_bracket_count`) becomes `scanRef`, and the outer
loop becomes `processTextLinks`. -/

/-- Consume the bracketed label: characters are accumulated while tracking
nesting depth; the closing bracket that brings the depth to zero is consumed
but not accumulated.  Returns `(link_text, remaining input)`.  If the input
ends first, everything was accumulated (as in the Rust loop). -/
def scanLabel : List Char → Nat → List Char × List Char
  | [], _ => ([], [])
  | c :: rest, depth =>
    if c = '[' then
      (c :: (scanLabel rest (depth + 1)).1, (scanLabel rest (depth + 1)).2)
    else if c = ']' then
      if depth = 1 then ([], rest)
      else
        (c :: (scanLabel rest (depth - 1)).1, (scanLabel rest (depth - 1)).2)
    else
      (c :: (scanLabel rest depth).1, (scanLabel rest depth).2)
termination_by structural l => l

/-- Consume the `[reference]` group (its content is discarded), tracking
nesting depth; returns the input after the matching closing bracket. -/
def scanRef : List Char → Nat → List Char
  | [], _ => []
  | c :: rest, depth =>
    if c = '[' then scanRef rest (depth + 1)
    else if c = ']' then
      if depth = 1 then rest else scanRef rest (depth - 1)
    else scanRef rest depth
termination_by structural l => l

/-- The body of `process_text_links`, with an explicit fuel argument so
the recursion is structural: every iteration of the outer Rust loop
consumes at least one character, so fuel equal to the input length is
always sufficient (`ptlGo_eq`). -/
def ptlGo : Nat → List Char → List Char
  | 0, _ => []
  | _ + 1, [] => []
  | fuel + 1, c :: rest =>
    if c = '[' then
      let r2 := (scanLabel rest 1).2.dropWhile Char.isWhitespace
      if r2.head? = some '[' then (scanLabel rest 1).1 ++ ptlGo fuel (scanRef r2.tail 1)
      else '[' :: ((scanLabel rest 1).1 ++ ']' :: ptlGo fuel r2)
    else
      c :: ptlGo fuel rest
termination_by structural fuel => fuel

/-- The embedding of `process_text_links`, on character lists. -/
def processTextLinks (l : List Char) : List Char :=
  ptlGo l.length l

/-- The function `process_text_links` on `String`s, as called from `convert_children`. -/
def processTextLinksStr (s : String) : String :=
  String.mk (processTextLinks s.toList)

/-! ## Parsed HTML trees

The document reader (`scraper`) is an external collaborator; the converter
only walks the parsed tree.  A node is an element (name, attributes,
children) or a text node. -/

inductive Node where
  | text (s : String)
  | elem (name : String) (attrs : List (String × String)) (children : List Node)

mutual

def nodeDecEq : (a b : Node) → Decidable (a = b)
  | .text s, .text t =>
    if h : s = t then isTrue (by rw [h]) else isFalse (by simp [h])
  | .text _, .elem _ _ _ => isFalse (by simp)
  | .elem _ _ _, .text _ => isFalse (by simp)
  | .elem n1 a1 c1, .elem n2 a2 c2 =>
    if h1 : n1 = n2 then
      if h2 : a1 = a2 then
        match nodeListDecEq c1 c2 with
        | isTrue h3 => isTrue (by rw [h1, h2, h3])
        | isFalse h3 => isFalse (by simp [h3])
      else isFalse (by simp [h2])
    else isFalse (by simp [h1])
termination_by structural a => a

def nodeListDecEq : (l1 l2 : List Node) → Decidable (l1 = l2)
  | [], [] => isTrue rfl
  | [], _ :: _ => isFalse (by simp)
  | _ :: _, [] => isFalse (by simp)
  | x :: xs, y :: ys =>
    match nodeDecEq x y, nodeListDecEq xs ys with
    | isTrue h1, isTrue h2 => isTrue (by rw [h1, h2])
    | isFalse h1, _ => isFalse (by simp [h1])
    | _, isFalse h2 => isFalse (by simp [h2])
termination_by structural l => l

end

instance : DecidableEq Node := nodeDecEq

/-- Embedding of `Element::attr`: the value of the named attribute, if present. -/
def getAttr (attrs : List (String × String)) (k : String) : Option String :=
  (attrs.find? (fun p => p.1 = k)).map (·.2)

/-- Attribute access on a node (`None` for text nodes). -/
def nodeAttr : Node → String → Option String
  | .text _, _ => none
  | .elem _ attrs _, k => getAttr attrs k

/-- The embedding of `should_skip_node`: rustdoc-specific elements that are
dropped outright (UI controls, toolbars, scripts, anchors, ...). -/
def shouldSkipNode (name : String) (attrs : List (String × String)) : Bool :=
  if name = "wbr" || name = "rustdoc-toolbar" || name = "script" then true
  else if getAttr attrs "id" = some "copy-path"
      || getAttr attrs "id" = some "implementors"
      || getAttr attrs "id" = some "implementors-list" then true
  else
    match getAttr attrs "class" with
    | some c =>
        strContains c "src" || strContains c "hideme" || strContains c "anchor"
          || strContains c "rustdoc-breadcrumbs" || strContains c "tooltip"
    | none => false

/-! ## Whitespace normalization (`convert_children_normalized`)

The Rust code collects children into a buffer and then joins
`buffer.split_whitespace()` with single spaces. -/

/-- Embedding of `str::split_whitespace` on character lists, with the current partial
word accumulated in reverse: whitespace finishes the pending word,
everything else extends it. -/
def wsWordsGo (cur : List Char) : List Char → List (List Char)
  | [] => if cur.isEmpty then [] else [cur.reverse]
  | c :: rest =>
    if c.isWhitespace then
      if cur.isEmpty then wsWordsGo [] rest
      else cur.reverse :: wsWordsGo [] rest
    else wsWordsGo (c :: cur) rest
termination_by structural l => l

/-- Embedding of `str::split_whitespace`: the maximal runs of non-whitespace characters,
in order. -/
def wsWords (l : List Char) : List (List Char) :=
  wsWordsGo [] l

/-- Embedding of the join with a single-space separator. -/
def joinWords : List (List Char) → List Char
  | [] => []
  | [w] => w
  | w :: ws => w ++ ' ' :: joinWords ws

/-- Collapse all interior whitespace of a string to single spaces and strip
leading/trailing whitespace. -/
def normalizeWs (s : String) : String :=
  String.mk (joinWords (wsWords s.toList))

/-! ## Text-node handling inside `convert_children` -/

/-- The non-breaking-space character `U+00A0`. -/
def nbspChar : Char := Char.ofNat 160

/-- Replacement of the non-breaking-space character by a plain space. -/
def replaceNbspChar (l : List Char) : List Char :=
  l.map (fun c => if c = nbspChar then ' ' else c)

/-- Replacement of the literal entity form of the non-breaking space by a plain space (leftmost, non-overlapping). -/
def replaceNbspEntity : List Char → List Char
  | '&' :: 'n' :: 'b' :: 's' :: 'p' :: ';' :: rest => ' ' :: replaceNbspEntity rest
  | c :: rest => c :: replaceNbspEntity rest
  | [] => []

/-- What a text node contributes to the output: normalize non-breaking
spaces, drop all-whitespace text, then rewrite reference-style links. -/
def textNodePiece (s : String) : String :=
  let t := replaceNbspEntity (replaceNbspChar s.toList)
  if t.all Char.isWhitespace then "" else String.mk (processTextLinks t)

/-! ## The recursive converter (`convert_node` and friends)

`convertNode` takes the name of the node's parent element because the Rust
code inspects `node.parent()` to decide whether a `<code>` element sits
inside a `<pre>` block.  `convert_list` and `convert_definition_list`
dispatch on `li` / `dt` / `dd` children directly, without going through
`should_skip_node` — exactly as the Rust code does. -/

mutual

/-- The embedding of `convert_node`, extended to text nodes with the text
arm of `convert_children` (in the Rust code `convert_node` is only ever
invoked on element nodes and `convert_children` handles its text children
inline; folding the text case into `convertNode` keeps the recursion
uniform without changing the composite behaviour). -/
def convertNode (parent : String) : Node → String
  | .text s => textNodePiece s
  | .elem name attrs children =>
    if shouldSkipNode name attrs then ""
    else if name = "h1" then "# " ++ normalizeWs (convertChildren name children) ++ "\n\n"
    else if name = "h2" then "## " ++ normalizeWs (convertChildren name children) ++ "\n\n"
    else if name = "h3" then "### " ++ normalizeWs (convertChildren name children) ++ "\n\n"
    else if name = "h4" then "#### " ++ normalizeWs (convertChildren name children) ++ "\n\n"
    else if name = "h5" then "##### " ++ normalizeWs (convertChildren name children) ++ "\n\n"
    else if name = "h6" then "###### " ++ normalizeWs (convertChildren name children) ++ "\n\n"
    else if name = "p" then normalizeWs (convertChildren name children) ++ "\n\n"
    else if name = "code" then
      if parent = "pre" then convertChildren name children
      else "`" ++ convertChildren name children ++ "`"
    else if name = "pre" then "```\n" ++ convertChildren name children ++ "\n```\n\n"
    else if name = "div" || name = "section" || name = "article" || name = "header"
        || name = "footer" || name = "nav" || name = "aside" then
      convertChildren name children
    else if name = "span" then convertChildren name children
    else if name = "a" then convertChildren name children
    else if name = "ul" then convertList false 1 children ++ "\n"
    else if name = "ol" then convertList true 1 children ++ "\n"
    else if name = "li" then normalizeWs (convertChildren name children)
    else if name = "dl" then convertDefList none false children ++ "\n"
    else if name = "dt" then "- **" ++ convertChildren name children ++ "**"
    else if name = "dd" then ": " ++ convertChildren name children ++ "\n"
    else if name = "strong" || name = "b" then "**" ++ convertChildren name children ++ "**"
    else if name = "em" || name = "i" then "_" ++ convertChildren name children ++ "_"
    else if name = "blockquote" then "> " ++ convertChildren name children ++ "\n\n"
    else if name = "br" then "\n\n"
    else convertChildren name children
termination_by structural n => n

/-- The embedding of `convert_children`: text nodes are filtered and passed
through `process_text_links`; element children recurse through
`convert_node` (their parent being the current element, `self`). -/
def convertChildren (self : String) : List Node → String
  | [] => ""
  | n :: rest => convertNode self n ++ convertChildren self rest
termination_by structural l => l

/-- The embedding of `convert_list`: only `li` element children are
rendered, prefixed `- ` or `N. `; the counter advances per item.
List items are converted with normalized whitespace
(`convert_list_item` = `convert_children_normalized`). -/
def convertList (isOrdered : Bool) (idx : Nat) : List Node → String
  | [] => ""
  | .elem "li" _ ch :: rest =>
    (if isOrdered then toString idx ++ ". " else "- ")
      ++ normalizeWs (convertChildren "li" ch) ++ "\n"
      ++ convertList isOrdered (idx + 1) rest
  | _ :: rest => convertList isOrdered idx rest
termination_by structural l => l

/-- The embedding of `convert_definition_list`, threading the
`current_term` / `has_description` state of the Rust loop. -/
def convertDefList (curTerm : Option String) (hasDesc : Bool) : List Node → String
  | [] => if curTerm.isSome && hasDesc then "\n" else ""
  | .elem "dt" _ ch :: rest =>
    (if curTerm.isSome && hasDesc then "\n" else "")
      ++ "- **" ++ normalizeWs (convertChildren "dt" ch) ++ "**"
      ++ convertDefList (some (normalizeWs (convertChildren "dt" ch))) false rest
  | .elem "dd" _ ch :: rest =>
    if curTerm.isSome then
      ": " ++ normalizeWs (convertChildren "dd" ch) ++ convertDefList curTerm true rest
    else
      convertDefList curTerm hasDesc rest
  | _ :: rest => convertDefList curTerm hasDesc rest
termination_by structural l => l

end

/-- The embedding of `convert_children_normalized` (collect the children
into a buffer, then collapse whitespace). -/
def convertChildrenNormalized (self : String) (children : List Node) : String :=
  normalizeWs (convertChildren self children)

/-! ## `html2md::convert`

`Html::parse_document` (the external document reader) never fails, and the
selector literal `"main"` always parses, so the only failure mode is the
absence of a `<main>` element.  `document.select(&selector).next()` yields
the first `main` element in tree (pre-)order. -/

mutual

/-- First element named `main` in document order. -/
def findMain : Node → Option Node
  | .text _ => none
  | .elem name attrs ch =>
    if name = "main" then some (.elem name attrs ch) else findMainList ch
termination_by structural n => n

def findMainList : List Node → Option Node
  | [] => none
  | n :: rest =>
    match findMain n with
    | some m => some m
    | none => findMainList rest
termination_by structural l => l

end

mutual

/-- Whether the document contains a `main` element at all (an independent
structural predicate, compared against `convert`'s success). -/
def hasMain : Node → Bool
  | .text _ => false
  | .elem name _ ch => name = "main" || hasMainList ch
termination_by structural n => n

def hasMainList : List Node → Bool
  | [] => false
  | n :: rest => hasMain n || hasMainList rest
termination_by structural l => l

end

/-- The embedding of `html2md::convert` on the parsed document.  The parent
name passed for the `main` element is `"body"`: in a parsed HTML document
`main` always sits below `body`, and the value only matters for `<code>`
elements, whose parent is never the document body. -/
def convert (doc : Node) : Except String String :=
  match findMain doc with
  | none =>
    .error "HTML document does not contain a <main> element. This may indicate invalid rustdoc HTML output."
  | some m => .ok (convertNode "body" m)

/-! ## `build::extract_item_mappings`

The CSS selector `ul.all-items li a` matches every `a` element that has an
`li` ancestor which in turn has an ancestor `ul` whose `class` attribute
contains the word `all-items`; `scraper` yields matches in tree order. -/

/-- CSS class matching: `class` is a whitespace-separated word list. -/
def hasClassWord (attrs : List (String × String)) (w : String) : Bool :=
  match getAttr attrs "class" with
  | none => false
  | some c => (wsWords c.toList).contains w.toList

mutual

/-- All text of the node's subtree, concatenated in order
(`ElementRef::text().collect::<String>()`). -/
def nodeText : Node → String
  | .text s => s
  | .elem _ _ ch => nodeTextList ch
termination_by structural n => n

def nodeTextList : List Node → String
  | [] => ""
  | n :: rest => nodeText n ++ nodeTextList rest
termination_by structural l => l

end

mutual

/-- Collect, in document order, every `a` element selected by
`ul.all-items li a`.  `underUl` records an `ul.all-items` ancestor,
`underLi` an `li` ancestor below such a `ul`. -/
def selAnchors (underUl underLi : Bool) : Node → List Node
  | .text _ => []
  | .elem name attrs ch =>
    (if name = "a" && underLi then [Node.elem name attrs ch] else [])
      ++ selAnchorsList (underUl || (name = "ul" && hasClassWord attrs "all-items"))
          (underLi || (name = "li" && underUl)) ch
termination_by structural n => n

def selAnchorsList (underUl underLi : Bool) : List Node → List Node
  | [] => []
  | n :: rest => selAnchors underUl underLi n ++ selAnchorsList underUl underLi rest
termination_by structural l => l

end

/-- The anchors of the items-listing page, in document order. -/
def selectAnchors (doc : Node) : List Node :=
  selAnchors false false doc

/-- The key/value loop body of `extract_item_mappings`: each anchor must
carry an `href`; its visible text, prefixed with the crate name, is
inserted into the map (later inserts overwrite earlier ones). -/
def buildMappings (crate : String) :
    List Node → List (String × String) → Except String (List (String × String))
  | [], acc => .ok acc
  | a :: rest, acc =>
    match nodeAttr a "href" with
    | none => .error "href attribute not found in item link"
    | some h => buildMappings crate rest (hmInsert (crate ++ "::" ++ nodeText a) h acc)

/-- The embedding of `build::extract_item_mappings`. -/
def extract_item_mappings (crate : String) (doc : Node) :
    Except String (List (String × String)) :=
  match buildMappings crate (selectAnchors doc) [] with
  | .error e => .error e
  | .ok m =>
    if m.isEmpty then
      .error "failed to find item mappings in documentation - no items found"
    else .ok m

/-! ## `show::parse_item_path` and `list::validate_crate_name` -/

/-- The embedding of `str::split("::")` (leftmost-first matching of the
two-character separator). -/
def splitSep2 : List Char → List (List Char)
  | [] => [[]]
  | ':' :: ':' :: rest => [] :: splitSep2 rest
  | c :: rest =>
    match splitSep2 rest with
    | [] => [[c]]
    | w :: ws => (c :: w) :: ws

/-- Re-join components with the `::` separator (`Vec::join("::")`). -/
def joinSep2 : List (List Char) → List Char
  | [] => []
  | [w] => w
  | w :: ws => w ++ ':' :: ':' :: joinSep2 ws

/-- Parsed item path: crate name plus optional remaining item path. -/
structure ParsedItemPath where
  crate_name : String
  item : Option String
deriving DecidableEq, Repr

/-- The embedding of `show::parse_item_path`: the crate name is the first
`::`-separated component and must be non-empty; the remaining components,
if any, are re-joined with `::` into the item path. -/
def parse_item_path (s : String) : Except String ParsedItemPath :=
  match splitSep2 s.toList with
  | [] =>
    .error ("invalid item path '" ++ s
      ++ "'. Expected format: <crate> or <crate>::<item> (e.g., 'serde' or 'serde::Error').")
  | first :: rest =>
    if first.isEmpty then
      .error ("invalid item path '" ++ s
        ++ "'. Expected format: <crate> or <crate>::<item> (e.g., 'serde' or 'serde::Error').")
    else
      .ok ⟨String.mk first, if rest.isEmpty then none else some (String.mk (joinSep2 rest))⟩

/-- The embedding of `list::validate_crate_name`: reject anything that
contains a `::` separator, then reject the empty name. -/
def validate_crate_name (s : String) : Except String Unit :=
  if strContains s "::" then
    .error ("the list command only accepts crate names. Use 'cargo txt show " ++ s
      ++ "' to view specific items.")
  else if s.isEmpty then
    .error "crate name cannot be empty"
  else
    .ok ()

/-! ## `show::resolve_markdown_path`

Filesystem reads are external collaborators: the cargo target directory and
the (already read and parsed) `all.html` document are parameters.  Path
concatenation (`PathBuf::join` on relative components) is `/`-separated
string concatenation. -/

/-- Embedding of the extension swap to md on the final path component: strip the
existing extension (the part after the last `.`, unless that `.` is the
leading character of the file name) and append `.md`. -/
def with_extension_md (p : String) : String :=
  let comps := p.toList.splitOn '/'
  let fixLast : List Char → List Char := fun name =>
    let stem :=
      match (name.reverse.findIdx? (· = '.')) with
      | none => name
      | some i => if i = name.length - 1 then name else name.take (name.length - i - 1)
    stem ++ ['.', 'm', 'd']
  match comps.reverse with
  | [] => p
  | lastC :: restRev => String.mk (List.intercalate ['/'] ((fixLast lastC :: restRev).reverse))

/-- The embedding of `show::resolve_markdown_path`.  With no item the crate
overview `index.md` is returned; otherwise the item is looked up in the
mappings extracted from `all.html` and the fragment's extension is swapped
for `.md`. -/
def resolve_markdown_path (parsed : ParsedItemPath) (targetDir : String) (allHtml : Node) :
    Except String String :=
  let crateDocmdDir := targetDir ++ "/docmd/" ++ parsed.crate_name
  match parsed.item with
  | none => .ok (crateDocmdDir ++ "/index.md")
  | some item =>
    match extract_item_mappings parsed.crate_name allHtml with
    | .error e => .error e
    | .ok mappings =>
      let fullItemPath := parsed.crate_name ++ "::" ++ item
      match hmGet fullItemPath mappings with
      | none =>
        .error ("could not resolve item path '" ++ fullItemPath
          ++ "'. Please ensure the item exists in the crate and try: `cargo txt build "
          ++ parsed.crate_name ++ "`")
      | some htmlPath => .ok (crateDocmdDir ++ "/" ++ with_extension_md htmlPath)

/-! ## The rustdoc JSON type model (`rustdoc_types` slice)

Only the pieces the embedded renderers inspect are modelled; every other
item kind is collapsed into `other`, which the Rust functions treat
uniformly (their `_ => continue` / `_ => ...` catch-alls). `Id` is a
number. -/

mutual

inductive RType where
  | resolvedPath (path : String) (id : Nat) (args : Option RGenericArgs)
  | generic (name : String)
  | primitive (name : String)
  | functionPointer
  | tuple (ts : List RType)
  | slice (t : RType)
  | array (t : RType) (len : String)
  | pat (t : RType)
  | rawPointer (is_mutable : Bool) (t : RType)
  | borrowedRef (lifetime : Option String) (is_mutable : Bool) (t : RType)
  | implTrait
  | infer
  | dynTrait
  | qualifiedPath
deriving Repr

inductive RGenericArgs where
  | angleBracketed (args : List RGenericArg)
  | parenthesized
  | rtn
deriving Repr

inductive RGenericArg where
  | type (t : RType)
  | lifetime (s : String)
  | constArg
  | inferArg
deriving Repr

end

inductive RVariantKind where
  | plain
  | tuple (fields : List (Option Nat))
  | structK (fields : List Nat)
deriving Repr

inductive RGenParamKind where
  | lifetime
  | type
  | const
deriving Repr

structure RGenericParamDef where
  name : String
  kind : RGenParamKind
deriving Repr

structure RGenerics where
  params : List RGenericParamDef
deriving Repr

inductive RVisibility where
  | public
  | default
  | crateVis
  | restricted
deriving Repr

structure RUnion where
  generics : RGenerics
  fields : List Nat
deriving Repr

inductive RItemEnum where
  | enumItem (variants : List Nat) (impls : List Nat)
  | variantItem (kind : RVariantKind) (discriminant : Option String)
  | structFieldItem (t : RType)
  | unionItem (u : RUnion)
  | other
deriving Repr

structure RItem where
  id : Nat
  name : Option String
  docs : Option String
  visibility : RVisibility
  inner : RItemEnum
deriving Repr

/-- Embedding of the crate-index lookup on the association-list model of the read-only
`HashMap<Id, Item>`. -/
def idxGet (idx : List (Nat × RItem)) (i : Nat) : Option RItem :=
  (idx.find? (fun p => p.1 = i)).map (·.2)

/-- Comma-joining of rendered pieces. -/
def joinComma (l : List String) : String :=
  String.intercalate ", " l

/-- The last component of a double-colon-separated path. -/
def lastPathSeg (s : String) : String :=
  String.mk ((splitSep2 s.toList).getLastD [])

/-! ### `type_alias::render_type_plain` and `render_generic_args` -/

mutual

/-- The embedding of `type_alias::render_type_plain`. -/
def renderTypePlain : RType → String
  | .resolvedPath p _ args =>
    match args with
    | some a => lastPathSeg p ++ renderGenericArgsPlain a
    | none => lastPathSeg p
  | .generic n => n
  | .primitive n => n
  | .functionPointer => "fn(...)"
  | .tuple ts => "(" ++ joinComma (renderTypePlainList ts) ++ ")"
  | .slice t => "[" ++ renderTypePlain t ++ "]"
  | .array t len => "[" ++ renderTypePlain t ++ "; " ++ len ++ "]"
  | .pat t => renderTypePlain t
  | .rawPointer m t => (if m then "*mut " else "*const ") ++ renderTypePlain t
  | .borrowedRef lt m t =>
    "&" ++ (match lt with | some l => l ++ " " | none => "")
      ++ (if m then "mut " else "") ++ renderTypePlain t
  | .implTrait => "impl Trait"
  | .infer => "_"
  | .dynTrait => "dyn Trait"
  | .qualifiedPath => "<qualified path>"

def renderTypePlainList : List RType → List String
  | [] => []
  | t :: ts => renderTypePlain t :: renderTypePlainList ts

/-- The embedding of `type_alias::render_generic_args`. -/
def renderGenericArgsPlain : RGenericArgs → String
  | .angleBracketed args =>
    match renderArgList args with
    | [] => ""
    | strs => "<" ++ joinComma strs ++ ">"
  | .parenthesized => "(...)"
  | .rtn => "(..) -> _"

def renderArgList : List RGenericArg → List String
  | [] => []
  | .type t :: rest => renderTypePlain t :: renderArgList rest
  | .lifetime l :: rest => l :: renderArgList rest
  | .constArg :: rest => "const" :: renderArgList rest
  | .inferArg :: rest => "?" :: renderArgList rest

end

/-! ### `type_alias::get_variant_type_from_alias` and
`generate_variants_table` -/

/-- The embedding of `get_variant_type_from_alias`: only the `Ok` and `Err`
variant names are recognised (first and second angle-bracketed argument of
the aliased `Result`-like path); anything else yields the empty string. -/
def get_variant_type_from_alias (aliasType : RType) (variantName : String) : String :=
  match aliasType with
  | .resolvedPath _ _ (some (.angleBracketed args)) =>
    if variantName = "Ok" then
      match args.head? with
      | some (.type t) => renderTypePlain t
      | _ => ""
    else if variantName = "Err" then
      if args.length > 1 then
        match args.get? 1 with
        | some (.type t) => renderTypePlain t
        | _ => ""
      else ""
    else ""
  | _ => ""

/-- The backtick character, named to keep it out of character literals. -/
def tickChar : Char := Char.ofNat 96

/-- Embedding of Rust trim_matches applied to the backtick character:
strip leading and trailing backticks. -/
def trimTicks (s : String) : String :=
  String.mk (((s.toList.dropWhile (· = tickChar)).reverse.dropWhile (· = tickChar)).reverse)

/-- The first line of a documentation string (empty for empty docs). -/
def firstLine (s : String) : String :=
  let l := s.toList.takeWhile (· ≠ '\n')
  String.mk (if l.getLast? = some '\r' then l.dropLast else l)

/-- One row of the variants table per variant id found in the index (the
Rust loop body; missing ids and non-variant items are skipped). -/
def variantRows (aliasType : RType) (idx : List (Nat × RItem)) : List Nat → String
  | [] => ""
  | vid :: rest =>
    match idxGet idx vid with
    | none => variantRows aliasType idx rest
    | some vitem =>
      let vname := vitem.name.getD "?"
      match vitem.inner with
      | .variantItem kind _ =>
        let vtype :=
          match kind with
          | .plain => "N/A"
          | .tuple _ =>
            let vt := get_variant_type_from_alias aliasType vname
            if vt.isEmpty then "T" else vt
          | .structK fields =>
            joinComma (fields.filterMap (fun fid => (idxGet idx fid).bind (·.name)))
        let desc :=
          match vitem.docs with
          | none => ""
          | some d => firstLine d
        "| `" ++ vname ++ "`    | `" ++ trimTicks vtype ++ "`     | " ++ desc ++ " |\n"
          ++ variantRows aliasType idx rest
      | _ => variantRows aliasType idx rest

/-- The embedding of `type_alias::generate_variants_table`. -/
def generate_variants_table (type_ : RType) (idx : List (Nat × RItem)) : String :=
  match type_ with
  | .resolvedPath _ aid _ =>
    match idxGet idx aid with
    | none => ""
    | some aliasedItem =>
      match aliasedItem.inner with
      | .enumItem variants _ =>
        "## Variants\n\n"
          ++ "| Variant | Type    | Description                |\n"
          ++ "| ------- | ------- | -------------------------- |\n"
          ++ variantRows type_ idx variants
          ++ "\n"
      | _ => ""
  | _ => ""

/-! ### `markdown::utils` helpers used by the union generator -/

/-- Embedding of `utils::render_header`. -/
def render_header (level : Nat) (text : String) : String :=
  String.mk (List.replicate level '#') ++ " " ++ text

/-- Embedding of `utils::render_inline_code`. -/
def render_inline_code (text : String) : String :=
  "`" ++ text ++ "`"

/-- Embedding of Rust lines: split on the newline, never yielding a final empty line for a
trailing newline; a trailing carriage return is stripped per line. -/
def strLines (s : String) : List String :=
  let raw := s.toList.splitOn '\n'
  let raw := if raw.getLast? = some [] then raw.dropLast else raw
  raw.map (fun l => String.mk (if l.getLast? = some '\r' then l.dropLast else l))

/-- One line of `utils::render_documentation`: trim, then strip a leading
`///` or `//` marker. -/
def renderDocLine (line : String) : String :=
  let trimmed := line.trim
  if trimmed.startsWith "///" then (trimmed.drop 3).trimLeft
  else if trimmed.startsWith "//" then (trimmed.drop 2).trimLeft
  else trimmed

/-- Embedding of `utils::render_documentation`. -/
def render_documentation : Option String → String
  | none => ""
  | some text =>
    if text.isEmpty then ""
    else String.intercalate "\n" ((strLines text).map renderDocLine)

/-- Embedding of `utils::render_next_actions_section`. -/
def render_next_actions_section (actions : List String) : String :=
  if actions.isEmpty then ""
  else "## Next Actions\n\n" ++ String.join (actions.map (fun a => "- " ++ a ++ "\n"))

/-! ### `markdown::union` -/

mutual

/-- The embedding of `union::render_type` (a simpler renderer than the
type-alias one: resolved paths keep their full path and drop their
arguments). -/
def unionRenderType : RType → String
  | .resolvedPath p _ _ => p
  | .primitive n => n
  | .generic n => n
  | .tuple ts => "(" ++ joinComma (unionRenderTypeList ts) ++ ")"
  | .slice t => "[" ++ unionRenderType t ++ "]"
  | .array t len => "[" ++ unionRenderType t ++ "; " ++ len ++ "]"
  | .rawPointer m t => "*" ++ (if m then "mut" else "const") ++ " " ++ unionRenderType t
  | .borrowedRef lt m t =>
    "&" ++ (match lt with | some l => "'" ++ l ++ " " | none => "")
      ++ (if m then "mut " else "") ++ unionRenderType t
  | .functionPointer => "fn(...)"
  | .implTrait => "impl Trait"
  | .dynTrait => "dyn Trait"
  | .infer => "_"
  | .qualifiedPath => "QualifiedPath"
  | .pat _ => "Pattern"

def unionRenderTypeList : List RType → List String
  | [] => []
  | t :: ts => unionRenderType t :: unionRenderTypeList ts

end

/-- The embedding of `union::render_visibility`. -/
def render_visibility : RVisibility → String
  | .public => "(pub)"
  | .default => ""
  | .crateVis => "(pub(crate))"
  | .restricted => "(pub restricted)"

/-- The embedding of `union::generate_safety_note`: the fixed safety
warning emitted for every union. -/
def generate_safety_note : String :=
  render_header 2 "Safety" ++ "\n"
    ++ "**Important**: Accessing union fields requires unsafe code. Only access the field that was most recently written to. Reading from a different field results in undefined behavior."
    ++ "\n"

/-- One bullet of the union fields section (the Rust loop body; missing ids
and non-field items are skipped). -/
def unionFieldRows (itemMap : List (Nat × RItem)) : List Nat → String
  | [] => ""
  | fid :: rest =>
    match idxGet itemMap fid with
    | none => unionFieldRows itemMap rest
    | some field =>
      match field.inner with
      | .structFieldItem t =>
        let name := field.name.getD "Unnamed"
        let typeStr := render_inline_code (unionRenderType t)
        let visibility := render_visibility field.visibility
        let fieldDocs := render_documentation field.docs
        "- " ++ typeStr ++ " " ++ name
          ++ (if visibility.isEmpty then "" else " " ++ visibility)
          ++ (if fieldDocs.isEmpty then "" else " - " ++ fieldDocs)
          ++ "\n" ++ unionFieldRows itemMap rest
      | _ => unionFieldRows itemMap rest

/-- The embedding of `union::generate_fields_section`. -/
def generate_fields_section (fieldIds : List Nat) (itemMap : List (Nat × RItem)) : String :=
  if fieldIds.isEmpty then ""
  else render_header 2 "Fields" ++ "\n" ++ unionFieldRows itemMap fieldIds

/-- The embedding of `union::generate_generics_section`. -/
def generate_generics_section (generics : RGenerics) : String :=
  if generics.params.isEmpty then ""
  else
    render_header 2 "Generic Parameters" ++ "\n"
      ++ String.join (generics.params.map (fun param =>
          "- `" ++ param.name ++ "`: "
            ++ (match param.kind with
                | .lifetime => "lifetime"
                | .type => "type"
                | .const => "const")
            ++ "\n"))

/-- The embedding of `union::generate_next_actions`. -/
def generate_next_actions (item : RItem) : String :=
  render_next_actions_section
    [ "View source: `cargo docmd browse --item " ++ toString item.id ++ "`",
      "Find related unions: `cargo docmd browse --type union`" ]

/-- The embedding of `union::generate_union_content`: header, optional
description, the mandatory safety note, then fields, generics and next
actions. -/
def generate_union_content (item : RItem) (u : RUnion) (itemMap : List (Nat × RItem)) :
    String :=
  let name := item.name.getD "Anonymous"
  let docs := render_documentation item.docs
  let fieldsSection := generate_fields_section u.fields itemMap
  let genericsSection := generate_generics_section u.generics
  let nextActions := generate_next_actions item
  render_header 1 name ++ "\n"
    ++ (if docs.isEmpty then "" else "\n" ++ docs ++ "\n")
    ++ "\n" ++ generate_safety_note
    ++ (if fieldsSection.isEmpty then "" else "\n" ++ fieldsSection)
    ++ (if genericsSection.isEmpty then "" else "\n" ++ genericsSection)
    ++ (if nextActions.isEmpty then "" else "\n" ++ nextActions)


/-! ## Auxiliary predicates and concrete fixtures for the claims -/

/-- A character sequence without square brackets (a plain link label or
reference name). -/
def noBrackets (w : List Char) : Bool :=
  w.all (fun c => !(c = '[' || c = ']'))

/-- The `href` of the LAST anchor in the list whose qualified visible text
equals `k` (the binding that survives the `HashMap::insert` loop). -/
def lastHref (crate k : String) : List Node → Option String
  | [] => none
  | a :: rest =>
    match lastHref crate k rest with
    | some v => some v
    | none => if crate ++ "::" ++ nodeText a = k then nodeAttr a "href" else none

/-- Items-listing page with two anchors of identical visible text
(fixture for the duplicate-key behaviour of the index builder). -/
def dupAnchorPage : Node :=
  .elem "body" []
    [.elem "ul" [("class", "all-items")]
      [.elem "li" []
        [.elem "a" [("href", "a.html")] [.text "Error"],
         .elem "a" [("href", "b.html")] [.text "Error"]]]]

/-- Items-listing page with a single `Error` anchor (the spec's concrete
index example). -/
def errorAnchorPage : Node :=
  .elem "body" []
    [.elem "ul" [("class", "all-items")]
      [.elem "li" []
        [.elem "a" [("href", "struct.Error.html")] [.text "Error"]]]]

/-- A `main` element whose list contains a tooltip-classed list item
(fixture for the skip-list exception). -/
def tooltipLiPage : Node :=
  .elem "main" []
    [.elem "ul" [] [.elem "li" [("class", "tooltip")] [.text "secret"]]]

/-- A two-variant, two-parameter enum (`Either`-like, variants `Left` and
`Right`) in a crate index, plus a type-alias target substituting `i32` and
`Error` for its parameters. -/
def eitherAliasType : RType :=
  .resolvedPath "Either" 300
    (some (.angleBracketed [.type (.primitive "i32"), .type (.resolvedPath "Error" 200 none)]))

def eitherIdx : List (Nat × RItem) :=
  [ (300, ⟨300, some "Either", none, .public, .enumItem [301, 302] []⟩),
    (301, ⟨301, some "Left", none, .public, .variantItem (.tuple [some 303]) none⟩),
    (302, ⟨302, some "Right", none, .public, .variantItem (.tuple [some 304]) none⟩) ]

/-- A `Result`-like aliased enum (variants `Ok` and `Err`) with the second
generic argument fixed to a concrete `Error` type, as in
`serde_json::Result<T>`. -/
def resultAliasType : RType :=
  .resolvedPath "core::result::Result" 100
    (some (.angleBracketed [.type (.generic "T"), .type (.resolvedPath "Error" 200 none)]))

def resultIdx : List (Nat × RItem) :=
  [ (100, ⟨100, some "Result", none, .public, .enumItem [101, 102] []⟩),
    (101, ⟨101, some "Ok", some "Contains success value", .public,
      .variantItem (.tuple [some 103]) none⟩),
    (102, ⟨102, some "Err", some "Contains error value", .public,
      .variantItem (.tuple [some 104]) none⟩) ]

/-! Helper lemmas and claim theorems follow. -/

theorem scanLabel_rest_length : ∀ (l : List Char) (d : Nat),
    (scanLabel l d).2.length ≤ l.length := by
  intro l
  induction l with
  | nil => intro d; simp [scanLabel]
  | cons c rest ih =>
    intro d
    simp only [scanLabel]
    split
    · have := ih (d + 1)
      simp only [List.length_cons]
      omega
    · split
      · split
        · simp
        · have := ih (d - 1)
          simp only [List.length_cons]
          omega
      · have := ih d
        simp only [List.length_cons]
        omega

theorem scanRef_length : ∀ (l : List Char) (d : Nat),
    (scanRef l d).length ≤ l.length := by
  intro l
  induction l with
  | nil => intro d; simp [scanRef]
  | cons c rest ih =>
    intro d
    simp only [scanRef]
    split
    · have := ih (d + 1); simp only [List.length_cons]; omega
    · split
      · split
        · simp
        · have := ih (d - 1); simp only [List.length_cons]; omega
      · have := ih d; simp only [List.length_cons]; omega

theorem dropWhile_length_le (p : Char → Bool) (l : List Char) :
    (l.dropWhile p).length ≤ l.length :=
  (List.dropWhile_sublist _).length_le

theorem ptlGo_nil : ∀ f : Nat, ptlGo f [] = [] := by
  intro f
  cases f <;> rfl

/-- Any sufficient fuel computes `processTextLinks`. -/
theorem ptlGo_eq : ∀ (f : Nat) (l : List Char), l.length ≤ f →
    ptlGo f l = processTextLinks l := by
  intro f
  induction f using Nat.strong_induction_on with
  | _ f ih =>
    intro l hl
    match f, l with
    | 0, l =>
      have : l = [] := by
        cases l with
        | nil => rfl
        | cons a b => simp at hl
      subst this
      rfl
    | f + 1, [] => rfl
    | f + 1, c :: rest =>
      simp only [List.length_cons] at hl
      show ptlGo (f + 1) (c :: rest) = ptlGo (rest.length + 1) (c :: rest)
      rw [ptlGo, ptlGo]
      have hlab : (scanLabel rest 1).2.length ≤ rest.length := scanLabel_rest_length rest 1
      have hdrop := dropWhile_length_le Char.isWhitespace (scanLabel rest 1).2
      set r2 := (scanLabel rest 1).2.dropWhile Char.isWhitespace with hr2def
      have hr2len : r2.length ≤ rest.length := by omega
      by_cases hc : c = '['
      · rw [if_pos hc, if_pos hc]
        by_cases hh : r2.head? = some '['
        · rw [if_pos hh, if_pos hh]
          have hne : r2 ≠ [] := by
            intro h0
            rw [h0] at hh
            simp at hh
          have htail : r2.tail.length < r2.length := by
            rw [List.length_tail]
            have := List.length_pos.mpr hne
            omega
          have hr3 : (scanRef r2.tail 1).length ≤ rest.length := by
            have := scanRef_length r2.tail 1
            omega
          rw [ih f (by omega) (scanRef r2.tail 1) (by omega),
            ih rest.length (by omega) (scanRef r2.tail 1) hr3]
        · rw [if_neg hh, if_neg hh]
          rw [ih f (by omega) r2 (by omega), ih rest.length (by omega) r2 hr2len]
      · rw [if_neg hc, if_neg hc]
        rw [ih f (by omega) rest (by omega), ih rest.length (by omega) rest (by omega)]

/-- The one-step unfolding of `processTextLinks`, matching the shape of the
Rust loop body: consume the label, skip whitespace; a following bracket
group is consumed and only the label text kept, otherwise the bracketed
label is re-emitted verbatim. -/
theorem processTextLinks_cons (c : Char) (rest : List Char) :
    processTextLinks (c :: rest) =
      if c = '[' then
        let r2 := (scanLabel rest 1).2.dropWhile Char.isWhitespace
        if r2.head? = some '[' then
          (scanLabel rest 1).1 ++ processTextLinks (scanRef r2.tail 1)
        else '[' :: ((scanLabel rest 1).1 ++ ']' :: processTextLinks r2)
      else
        c :: processTextLinks rest := by
  show ptlGo (rest.length + 1) (c :: rest) = _
  rw [ptlGo]
  have hlab : (scanLabel rest 1).2.length ≤ rest.length := scanLabel_rest_length rest 1
  have hdrop := dropWhile_length_le Char.isWhitespace (scanLabel rest 1).2
  set r2 := (scanLabel rest 1).2.dropWhile Char.isWhitespace with hr2def
  have hr2len : r2.length ≤ rest.length := by omega
  by_cases hc : c = '['
  · rw [if_pos hc, if_pos hc]
    by_cases hh : r2.head? = some '['
    · rw [if_pos hh, if_pos hh]
      have hne : r2 ≠ [] := by
        intro h0
        rw [h0] at hh
        simp at hh
      have htail : r2.tail.length < r2.length := by
        rw [List.length_tail]
        have := List.length_pos.mpr hne
        omega
      have hr3 : (scanRef r2.tail 1).length ≤ rest.length := by
        have := scanRef_length r2.tail 1
        omega
      rw [ptlGo_eq rest.length (scanRef r2.tail 1) hr3]
    · rw [if_neg hh, if_neg hh]
      rw [ptlGo_eq rest.length r2 hr2len]
  · rw [if_neg hc, if_neg hc]
    rw [ptlGo_eq rest.length rest (by omega)]


/-! ## Lemmas about the bracket scanners -/

theorem scanLabel_free (w : List Char) (rest : List Char) (d : Nat)
    (hw : noBrackets w = true) :
    scanLabel (w ++ ']' :: rest) (d + 1) =
      if d = 0 then (w, rest)
      else (w ++ ']' :: (scanLabel rest d).1, (scanLabel rest d).2) := by
  induction w with
  | nil =>
    by_cases hd : d = 0
    · subst hd
      simp [scanLabel]
    · have h2 : ¬(d + 1 = 1) := by omega
      simp [scanLabel, h2, hd, Nat.add_sub_cancel]
  | cons ch w' ih =>
    simp only [noBrackets, List.all_cons, Bool.and_eq_true, Bool.not_eq_true',
      Bool.or_eq_false_iff, decide_eq_false_iff_not] at hw
    obtain ⟨⟨hch1, hch2⟩, hw'⟩ := hw
    have hw'' : noBrackets w' = true := by
      simpa [noBrackets] using hw'
    simp only [List.cons_append, scanLabel, List.append_eq]
    rw [if_neg hch1, if_neg hch2, ih hw'']
    by_cases hd : d = 0
    · subst hd
      simp
    · simp [hd]

theorem scanLabel_open (a : List Char) (x : List Char)
    (ha : noBrackets a = true) :
    scanLabel (a ++ '[' :: x) 1 =
      (a ++ '[' :: (scanLabel x 2).1, (scanLabel x 2).2) := by
  induction a with
  | nil =>
    simp [scanLabel]
  | cons ch a' ih =>
    simp only [noBrackets, List.all_cons, Bool.and_eq_true, Bool.not_eq_true',
      Bool.or_eq_false_iff, decide_eq_false_iff_not] at ha
    obtain ⟨⟨hch1, hch2⟩, ha'⟩ := ha
    have ha'' : noBrackets a' = true := by
      simpa [noBrackets] using ha'
    simp only [List.cons_append, scanLabel, List.append_eq]
    rw [if_neg hch1, if_neg hch2, ih ha'']

theorem scanRef_free (r : List Char) (rest : List Char)
    (hr : noBrackets r = true) :
    scanRef (r ++ ']' :: rest) 1 = rest := by
  induction r with
  | nil =>
    simp [scanRef]
  | cons ch r' ih =>
    simp only [noBrackets, List.all_cons, Bool.and_eq_true, Bool.not_eq_true',
      Bool.or_eq_false_iff, decide_eq_false_iff_not] at hr
    obtain ⟨⟨hch1, hch2⟩, hr'⟩ := hr
    have hr'' : noBrackets r' = true := by
      simpa [noBrackets] using hr'
    simp only [List.cons_append, scanRef, List.append_eq]
    rw [if_neg hch1, if_neg hch2, ih hr'']

/-! ## The three behaviours of `process_text_links` -/

theorem hws_open : Char.isWhitespace '[' = false := by decide

theorem ptl_simple (t r rest : List Char)
    (ht : noBrackets t = true) (hr : noBrackets r = true) :
    processTextLinks ('[' :: (t ++ ']' :: '[' :: (r ++ ']' :: rest)))
      = t ++ processTextLinks rest := by
  have hlab : scanLabel (t ++ ']' :: '[' :: (r ++ ']' :: rest)) 1
      = (t, '[' :: (r ++ ']' :: rest)) := by
    simpa using scanLabel_free t ('[' :: (r ++ ']' :: rest)) 0 ht
  rw [processTextLinks_cons, if_pos rfl]
  simp [hlab, hws_open, scanRef_free r rest hr]

theorem ptl_nested (a b c r rest : List Char)
    (ha : noBrackets a = true) (hb : noBrackets b = true)
    (hc : noBrackets c = true) (hr : noBrackets r = true) :
    processTextLinks
        ('[' :: (a ++ '[' :: (b ++ ']' :: (c ++ ']' :: '[' :: (r ++ ']' :: rest)))))
      = (a ++ '[' :: (b ++ ']' :: c)) ++ processTextLinks rest := by
  have h1 : scanLabel (c ++ ']' :: '[' :: (r ++ ']' :: rest)) 1
      = (c, '[' :: (r ++ ']' :: rest)) := by
    simpa using scanLabel_free c ('[' :: (r ++ ']' :: rest)) 0 hc
  have h2 : scanLabel (b ++ ']' :: (c ++ ']' :: '[' :: (r ++ ']' :: rest))) 2
      = (b ++ ']' :: c, '[' :: (r ++ ']' :: rest)) := by
    simpa [h1] using scanLabel_free b (c ++ ']' :: '[' :: (r ++ ']' :: rest)) 1 hb
  have h3 : scanLabel (a ++ '[' :: (b ++ ']' :: (c ++ ']' :: '[' :: (r ++ ']' :: rest)))) 1
      = (a ++ '[' :: (b ++ ']' :: c), '[' :: (r ++ ']' :: rest)) := by
    simpa [h2] using
      scanLabel_open a (b ++ ']' :: (c ++ ']' :: '[' :: (r ++ ']' :: rest))) ha
  rw [processTextLinks_cons, if_pos rfl]
  simp [h3, hws_open, scanRef_free r rest hr]

theorem ptl_unmatched (t rest : List Char)
    (ht : noBrackets t = true)
    (hrest : (rest.dropWhile Char.isWhitespace).head? ≠ some '[') :
    processTextLinks ('[' :: (t ++ ']' :: rest))
      = '[' :: (t ++ ']' :: processTextLinks (rest.dropWhile Char.isWhitespace)) := by
  have hlab : scanLabel (t ++ ']' :: rest) 1 = (t, rest) := by
    simpa using scanLabel_free t rest 0 ht
  rw [processTextLinks_cons, if_pos rfl]
  simp [hlab, hrest]

/-- Claim C2 — The text-level pass rewrites every `[text][reference]` marker
to plain `text`, tracking bracket nesting so bracket text nested inside the
label is preserved, and an unmatched `[text]` with no following
`[reference]` group is emitted unchanged: (1) for bracket-free label and
reference, `[t][r]rest` becomes `t` followed by the processed rest; (2) a
label with a nested bracket group, `[a[b]c][r]rest`, becomes `a[b]c`
followed by the processed rest; (3) when the next non-whitespace character
after `[t]` is not `[` (or the input ends), the `[t]` portion is emitted
verbatim; and the spec's examples `"[foo][bar]" → "foo"`,
`"[foo]" → "[foo]"` hold. -/
theorem C2_process_text_links_spec :
    (∀ t r rest : List Char, noBrackets t = true → noBrackets r = true →
      processTextLinks ('[' :: (t ++ ']' :: '[' :: (r ++ ']' :: rest)))
        = t ++ processTextLinks rest)
  ∧ (∀ a b c r rest : List Char, noBrackets a = true → noBrackets b = true →
      noBrackets c = true → noBrackets r = true →
      processTextLinks
          ('[' :: (a ++ '[' :: (b ++ ']' :: (c ++ ']' :: '[' :: (r ++ ']' :: rest)))))
        = (a ++ '[' :: (b ++ ']' :: c)) ++ processTextLinks rest)
  ∧ (∀ t rest : List Char, noBrackets t = true →
      (rest.dropWhile Char.isWhitespace).head? ≠ some '[' →
      processTextLinks ('[' :: (t ++ ']' :: rest))
        = '[' :: (t ++ ']' :: processTextLinks (rest.dropWhile Char.isWhitespace)))
  ∧ processTextLinksStr "[foo][bar]" = "foo"
  ∧ processTextLinksStr "[foo]" = "[foo]" :=
  ⟨ptl_simple, ptl_nested, ptl_unmatched, by decide, by decide⟩

/-- Witness for C2: the general rewrite clauses instantiated on the spec's
own examples. -/
theorem C2_process_text_links_spec_witness :
    processTextLinks ('[' :: ("foo".toList ++ ']' :: '[' :: ("bar".toList ++ ']' :: [])))
      = "foo".toList ++ processTextLinks []
  ∧ processTextLinks
        ('[' :: ("a".toList ++ '[' :: ("b".toList ++ ']' :: ("c".toList ++ ']' :: '[' :: ("r".toList ++ ']' :: [])))))
      = ("a".toList ++ '[' :: ("b".toList ++ ']' :: "c".toList)) ++ processTextLinks []
  ∧ processTextLinks ('[' :: ("foo".toList ++ ']' :: " x".toList))
      = '[' :: ("foo".toList ++ ']' :: processTextLinks (" x".toList.dropWhile Char.isWhitespace)) :=
  ⟨C2_process_text_links_spec.1 "foo".toList "bar".toList [] (by decide) (by decide),
   C2_process_text_links_spec.2.1 "a".toList "b".toList "c".toList "r".toList []
     (by decide) (by decide) (by decide) (by decide),
   C2_process_text_links_spec.2.2.1 "foo".toList " x".toList (by decide) (by decide)⟩

/-! ## Lemmas for the converter and index-builder error behaviour (C3) -/

theorem findMain_isSome_eq_hasMain (n : Node) :
    (findMain n).isSome = hasMain n := by
  induction n using Node.rec
    (motive_2 := fun l => (findMainList l).isSome = hasMainList l) with
  | text s => simp [findMain, hasMain]
  | elem name attrs ch ih =>
    rw [findMain, hasMain]
    by_cases h : name = "main"
    · simp [h]
    · simp only [h, if_neg h, decide_eq_true_eq, decide_False, Bool.false_or]
      simpa using ih
  | nil => simp [findMainList, hasMainList]
  | cons n rest ihn ihl =>
    rw [findMainList, hasMainList]
    cases h : findMain n with
    | some m =>
      rw [h] at ihn
      simp [← ihn]
    | none =>
      rw [h] at ihn
      simp [← ihn, ihl]

theorem convert_isOk_eq_hasMain (doc : Node) :
    (convert doc).isOk = hasMain doc := by
  rw [convert]
  cases h : findMain doc with
  | some m =>
    have := findMain_isSome_eq_hasMain doc
    rw [h] at this
    simp at this
    simp [Except.isOk, Except.toBool, ← this]
  | none =>
    have := findMain_isSome_eq_hasMain doc
    rw [h] at this
    simp at this
    simp [Except.isOk, Except.toBool, ← this]

theorem hmInsert_ne_nil (k v : String) (acc : List (String × String)) :
    hmInsert k v acc ≠ [] := by
  cases acc with
  | nil => simp [hmInsert]
  | cons p rest =>
    obtain ⟨k', v'⟩ := p
    by_cases h : k' = k <;> simp [hmInsert, h]

theorem hmInsert_length_ge (k v : String) (acc : List (String × String)) :
    acc.length ≤ (hmInsert k v acc).length := by
  induction acc with
  | nil => simp [hmInsert]
  | cons p rest ih =>
    obtain ⟨k', v'⟩ := p
    by_cases h : k' = k <;> simp [hmInsert, h]
    omega

theorem buildMappings_total (crate : String) :
    ∀ (l : List Node) (acc : List (String × String)),
    (∀ a ∈ l, (nodeAttr a "href").isSome = true) →
    ∃ m, buildMappings crate l acc = .ok m ∧ acc.length ≤ m.length
      ∧ (acc ≠ [] → m ≠ []) := by
  intro l
  induction l with
  | nil =>
    intro acc _
    exact ⟨acc, rfl, le_refl _, fun h => h⟩
  | cons a rest ih =>
    intro acc hall
    have ha : (nodeAttr a "href").isSome = true := hall a (by simp)
    cases hh : nodeAttr a "href" with
    | none => rw [hh] at ha; simp at ha
    | some h =>
      have hrest : ∀ b ∈ rest, (nodeAttr b "href").isSome = true := by
        intro b hb
        exact hall b (by simp [hb])
      obtain ⟨m, hm, hlen, hne⟩ :=
        ih (hmInsert (crate ++ "::" ++ nodeText a) h acc) hrest
      refine ⟨m, ?_, ?_, fun _ => ?_⟩
      · rw [buildMappings, hh]
        exact hm
      · calc acc.length ≤ (hmInsert (crate ++ "::" ++ nodeText a) h acc).length :=
              hmInsert_length_ge _ _ _
          _ ≤ m.length := hlen
      · exact hne (hmInsert_ne_nil _ _ _)

theorem buildMappings_hrefs (crate : String) :
    ∀ (l : List Node) (acc m : List (String × String)),
    buildMappings crate l acc = .ok m →
    ∀ a ∈ l, (nodeAttr a "href").isSome = true := by
  intro l
  induction l with
  | nil => intro acc m _ a ha; simp at ha
  | cons b rest ih =>
    intro acc m hok a ha
    rw [buildMappings] at hok
    cases hh : nodeAttr b "href" with
    | none => rw [hh] at hok; simp at hok
    | some h =>
      rw [hh] at hok
      cases ha with
      | head => rw [hh]; rfl
      | tail _ hmem => exact ih _ m hok a hmem

/-- Claim C3 — `convert` fails exactly when the document has no `main`
element, and `extract_item_mappings` fails on a listing page with zero
selected anchors; when at least one anchor is selected and every selected
anchor carries an `href`, index building succeeds. -/
theorem C3_element_not_found_spec :
    (∀ doc : Node, (convert doc).isOk = hasMain doc)
  ∧ (∀ (crate : String) (doc : Node), selectAnchors doc = [] →
      extract_item_mappings crate doc
        = .error "failed to find item mappings in documentation - no items found")
  ∧ (∀ (crate : String) (doc : Node), selectAnchors doc ≠ [] →
      (∀ a ∈ selectAnchors doc, (nodeAttr a "href").isSome = true) →
      (extract_item_mappings crate doc).isOk = true) := by
  refine ⟨convert_isOk_eq_hasMain, ?_, ?_⟩
  · intro crate doc h
    rw [extract_item_mappings, h]
    rfl
  · intro crate doc hne hall
    rw [extract_item_mappings]
    cases hsel : selectAnchors doc with
    | nil => exact absurd hsel hne
    | cons a rest =>
      rw [hsel] at hall
      have ha : (nodeAttr a "href").isSome = true := hall a (by simp)
      cases hh : nodeAttr a "href" with
      | none => rw [hh] at ha; simp at ha
      | some h =>
        have hrest : ∀ b ∈ rest, (nodeAttr b "href").isSome = true := by
          intro b hb
          exact hall b (by simp [hb])
        obtain ⟨m, hm, _, hne'⟩ :=
          buildMappings_total crate rest
            (hmInsert (crate ++ "::" ++ nodeText a) h []) hrest
        have hstep : buildMappings crate (a :: rest) []
            = buildMappings crate rest (hmInsert (crate ++ "::" ++ nodeText a) h []) := by
          rw [buildMappings, hh]
        rw [hstep, hm]
        have hm' : m ≠ [] := hne' (hmInsert_ne_nil _ _ _)
        cases m with
        | nil => exact absurd rfl hm'
        | cons p ms => rfl

/-- Witness for C3: the empty page has no `main` and no anchors; the
one-anchor page extracts successfully. -/
theorem C3_element_not_found_spec_witness :
    ((convert (Node.elem "body" [] [])).isOk = hasMain (Node.elem "body" [] []))
  ∧ extract_item_mappings "serde" (Node.elem "body" [] [])
      = .error "failed to find item mappings in documentation - no items found"
  ∧ (extract_item_mappings "lib" errorAnchorPage).isOk = true :=
  ⟨C3_element_not_found_spec.1 (Node.elem "body" [] []),
   C3_element_not_found_spec.2.1 "serde" (Node.elem "body" [] []) (by decide),
   C3_element_not_found_spec.2.2 "lib" errorAnchorPage (by decide) (by decide)⟩

/-! ## Lemmas about the key/value loop of the index builder (C4/C10) -/

theorem hmGet_hmInsert (k key v : String) (acc : List (String × String)) :
    hmGet k (hmInsert key v acc) = if key = k then some v else hmGet k acc := by
  induction acc with
  | nil =>
    by_cases h : key = k <;> simp [hmInsert, hmGet, h]
  | cons p rest ih =>
    obtain ⟨k', v'⟩ := p
    by_cases h1 : k' = key
    · subst h1
      by_cases h2 : k' = k <;> simp [hmInsert, hmGet, h2]
    · by_cases h2 : k' = k
      · subst h2
        have h3 : ¬(key = k') := fun h => h1 h.symm
        simp [hmInsert, hmGet, h1, h3]
      · simp [hmInsert, hmGet, h1, h2, ih]

theorem extract_ok_build (crate : String) (doc : Node) (m : List (String × String))
    (h : extract_item_mappings crate doc = .ok m) :
    buildMappings crate (selectAnchors doc) [] = .ok m := by
  rw [extract_item_mappings] at h
  cases hb : buildMappings crate (selectAnchors doc) [] with
  | error e => rw [hb] at h; simp at h
  | ok m' =>
    rw [hb] at h
    by_cases he : m'.isEmpty
    · simp [he] at h
    · simp only [he, Bool.false_eq_true, if_false] at h
      simp at h
      rw [h]

theorem buildMappings_get (crate : String) :
    ∀ (l : List Node) (acc m : List (String × String)),
    buildMappings crate l acc = .ok m →
    ∀ k, hmGet k m =
      match lastHref crate k l with
      | some v => some v
      | none => hmGet k acc := by
  intro l
  induction l with
  | nil =>
    intro acc m h k
    rw [buildMappings] at h
    injection h with h
    subst h
    simp [lastHref]
  | cons a rest ih =>
    intro acc m h k
    rw [buildMappings] at h
    cases hh : nodeAttr a "href" with
    | none => rw [hh] at h; simp at h
    | some v =>
      rw [hh] at h
      have hrec := ih _ m h k
      rw [hrec, hmGet_hmInsert]
      rw [lastHref]
      cases hl : lastHref crate k rest with
      | some w => simp
      | none =>
        by_cases hk : crate ++ "::" ++ nodeText a = k
        · simp [hk, hh]
        · simp [hk]

theorem lastHref_isSome (crate : String) :
    ∀ (l : List Node) (a : Node), a ∈ l →
    (∀ b ∈ l, (nodeAttr b "href").isSome = true) →
    (lastHref crate (crate ++ "::" ++ nodeText a) l).isSome = true := by
  intro l
  induction l with
  | nil => intro a ha _; simp at ha
  | cons b rest ih =>
    intro a ha hall
    rw [lastHref]
    cases hl : lastHref crate (crate ++ "::" ++ nodeText a) rest with
    | some w => simp
    | none =>
      cases ha with
      | head =>
        rw [if_pos rfl]
        exact hall _ (List.mem_cons_self _ _)
      | tail _ hmem =>
        have := ih a hmem (fun c hc => hall c (List.mem_cons_of_mem _ hc))
        rw [hl] at this
        simp at this

/-- Claim C10 — When several selected anchors share the same visible text,
`HashMap::insert` silently keeps only the last anchor's `href` for the key:
the value of every key in a successfully built index is the `href` of the
LAST selected anchor with that qualified text; on the concrete
duplicate-text page the builder returns `Ok` (no error or warning) with a
single entry, fewer than the two anchors. -/
theorem C10_duplicate_keys_last_wins :
    (∀ (crate : String) (doc : Node) (m : List (String × String)),
      extract_item_mappings crate doc = .ok m →
      ∀ k, hmGet k m = lastHref crate k (selectAnchors doc))
  ∧ extract_item_mappings "lib" dupAnchorPage = .ok [("lib::Error", "b.html")]
  ∧ (selectAnchors dupAnchorPage).length = 2 := by
  refine ⟨?_, by decide, by decide⟩
  intro crate doc m h k
  have hb := extract_ok_build crate doc m h
  have hg := buildMappings_get crate (selectAnchors doc) [] m hb k
  rw [hg]
  cases lastHref crate k (selectAnchors doc) <;> simp [hmGet]

/-- Witness for C10: the general last-wins clause applied to the concrete
duplicate-text page. -/
theorem C10_duplicate_keys_last_wins_witness :
    hmGet "lib::Error" [("lib::Error", "b.html")]
      = lastHref "lib" "lib::Error" (selectAnchors dupAnchorPage) :=
  C10_duplicate_keys_last_wins.1 "lib" dupAnchorPage [("lib::Error", "b.html")]
    (by decide) "lib::Error"

/-- Counterexample for C4 as stated: on a page with two anchors of visible
text `Error` and hrefs `a.html` / `b.html`, the built index does NOT map
the first anchor's qualified text to that anchor's own href — the earlier
binding is silently overwritten. -/
theorem C4_counterexample :
    selectAnchors dupAnchorPage
      = [Node.elem "a" [("href", "a.html")] [Node.text "Error"],
         Node.elem "a" [("href", "b.html")] [Node.text "Error"]]
  ∧ nodeText (Node.elem "a" [("href", "a.html")] [Node.text "Error"]) = "Error"
  ∧ nodeAttr (Node.elem "a" [("href", "a.html")] [Node.text "Error"]) "href" = some "a.html"
  ∧ extract_item_mappings "lib" dupAnchorPage = .ok [("lib::Error", "b.html")]
  ∧ ¬(hmGet "lib::Error" [("lib::Error", "b.html")] = some "a.html") := by
  refine ⟨by decide, by decide, by decide, by decide, by decide⟩

/-- Claim C4, amended — For every anchor selected from the items-listing
container, the built index contains the key `crate::text`; its value is
the `href` of the LAST selected anchor with that visible text (which is
the anchor's own `href` whenever its text is unique).  In particular an
anchor with text `Error` and fragment `struct.Error.html` under library
`lib` yields the entry `lib::Error → struct.Error.html`. -/
theorem C4_index_key_spec :
    (∀ (crate : String) (doc : Node) (m : List (String × String)),
      extract_item_mappings crate doc = .ok m →
      ∀ a ∈ selectAnchors doc,
        hmGet (crate ++ "::" ++ nodeText a) m
            = lastHref crate (crate ++ "::" ++ nodeText a) (selectAnchors doc)
          ∧ (hmGet (crate ++ "::" ++ nodeText a) m).isSome = true)
  ∧ extract_item_mappings "lib" errorAnchorPage
      = .ok [("lib::Error", "struct.Error.html")] := by
  refine ⟨?_, by decide⟩
  intro crate doc m h a ha
  have hb := extract_ok_build crate doc m h
  have hg := buildMappings_get crate (selectAnchors doc) [] m hb (crate ++ "::" ++ nodeText a)
  have hrefs := buildMappings_hrefs crate (selectAnchors doc) [] m hb
  have hsome := lastHref_isSome crate (selectAnchors doc) a ha hrefs
  have hget : hmGet (crate ++ "::" ++ nodeText a) m
      = lastHref crate (crate ++ "::" ++ nodeText a) (selectAnchors doc) := by
    rw [hg]
    cases lastHref crate (crate ++ "::" ++ nodeText a) (selectAnchors doc) <;> simp [hmGet]
  exact ⟨hget, by rw [hget]; exact hsome⟩

/-- Witness for C4: the amended clause applied to the single-`Error` page. -/
theorem C4_index_key_spec_witness :
    hmGet ("lib" ++ "::" ++ nodeText (Node.elem "a" [("href", "struct.Error.html")] [Node.text "Error"]))
        [("lib::Error", "struct.Error.html")]
      = lastHref "lib"
          ("lib" ++ "::" ++ nodeText (Node.elem "a" [("href", "struct.Error.html")] [Node.text "Error"]))
          (selectAnchors errorAnchorPage)
  ∧ (hmGet ("lib" ++ "::" ++ nodeText (Node.elem "a" [("href", "struct.Error.html")] [Node.text "Error"]))
        [("lib::Error", "struct.Error.html")]).isSome = true :=
  C4_index_key_spec.1 "lib" errorAnchorPage [("lib::Error", "struct.Error.html")]
    (by decide) (Node.elem "a" [("href", "struct.Error.html")] [Node.text "Error"]) (by decide)

/-! ## Path validation (C1) -/

/-- Counterexample for C1 as stated: a trailing `::` separator does NOT
fail `parse_item_path`'s validation — `"serde::Error::"` parses
successfully (crate `serde`, item `Error::`), exactly as the module's own
unit test `parse_item_path_trailing_separator` asserts. -/
theorem C1_counterexample :
    parse_item_path "serde::Error::" = .ok ⟨"serde", some "Error::"⟩ := by decide

/-- Claim C1, amended — `parse_item_path` rejects the empty path and every
path whose first `::`-component is empty (a leading separator, hence also
a path of only separators); `validate_crate_name` rejects the empty name
and every input containing `::` anywhere — leading, trailing or doubled
separators included, since any `a::b` split contains the separator; but
`parse_item_path` accepts a trailing separator, deferring that failure to
resolution. -/
theorem C1_path_validation_spec :
    (parse_item_path "").isOk = false
  ∧ (∀ s : String, (parse_item_path ("::" ++ s)).isOk = false)
  ∧ (validate_crate_name "").isOk = false
  ∧ (∀ s : String, strContains s "::" = true → (validate_crate_name s).isOk = false)
  ∧ (∀ a b : String, strContains (a ++ "::" ++ b) "::" = true)
  ∧ parse_item_path "serde::Error::" = .ok ⟨"serde", some "Error::"⟩ := by
  refine ⟨by decide, ?_, by decide, ?_, ?_, by decide⟩
  · intro s
    have h1 : ("::" ++ s).toList = ':' :: ':' :: s.toList := by
      show ("::" ++ s).data = _
      rw [String.data_append]
      rfl
    rw [parse_item_path, h1]
    rfl
  · intro s h
    simp [validate_crate_name, h, Except.isOk, Except.toBool]
  · intro a b
    simp only [strContains, decide_eq_true_eq]
    refine ⟨a.toList, b.toList, ?_⟩
    show a.data ++ "::".data ++ b.data = (a ++ "::" ++ b).data
    rw [String.data_append, String.data_append]

/-- Witness for C1: the universally quantified clauses applied at concrete
inputs. -/
theorem C1_path_validation_spec_witness :
    (parse_item_path ("::" ++ "invalid")).isOk = false
  ∧ (validate_crate_name "serde::Error").isOk = false
  ∧ strContains ("serde" ++ "::" ++ "") "::" = true :=
  ⟨C1_path_validation_spec.2.1 "invalid",
   C1_path_validation_spec.2.2.2.1 "serde::Error" (by decide),
   C1_path_validation_spec.2.2.2.2.1 "serde" ""⟩

/-! ## Path resolution (C5) -/

/-- Claim C5 — `resolve_markdown_path` returns the crate overview `index.md`
without failing when the parsed path has no qualifier; with a qualifier it
returns the mapped fragment path with its extension swapped to `.md` when
the mapping exists, and otherwise fails with the message suggesting
`cargo txt build <crate>`; the extension swap turns `struct.Error.html`
into `struct.Error.md`. -/
theorem C5_resolve_markdown_path_spec :
    (∀ (parsed : ParsedItemPath) (targetDir : String) (doc : Node),
      parsed.item = none →
      resolve_markdown_path parsed targetDir doc
        = .ok (targetDir ++ "/docmd/" ++ parsed.crate_name ++ "/index.md"))
  ∧ (∀ (parsed : ParsedItemPath) (targetDir : String) (doc : Node)
      (q : String) (m : List (String × String)) (p : String),
      parsed.item = some q →
      extract_item_mappings parsed.crate_name doc = .ok m →
      hmGet (parsed.crate_name ++ "::" ++ q) m = some p →
      resolve_markdown_path parsed targetDir doc
        = .ok (targetDir ++ "/docmd/" ++ parsed.crate_name ++ "/" ++ with_extension_md p))
  ∧ (∀ (parsed : ParsedItemPath) (targetDir : String) (doc : Node)
      (q : String) (m : List (String × String)),
      parsed.item = some q →
      extract_item_mappings parsed.crate_name doc = .ok m →
      hmGet (parsed.crate_name ++ "::" ++ q) m = none →
      resolve_markdown_path parsed targetDir doc
        = .error ("could not resolve item path '" ++ (parsed.crate_name ++ "::" ++ q)
            ++ "'. Please ensure the item exists in the crate and try: `cargo txt build "
            ++ parsed.crate_name ++ "`"))
  ∧ with_extension_md "struct.Error.html" = "struct.Error.md" := by
  refine ⟨?_, ?_, ?_, by decide⟩
  · intro parsed targetDir doc h
    rw [resolve_markdown_path, h]
  · intro parsed targetDir doc q m p hitem hext hget
    simp only [resolve_markdown_path, hitem, hext, hget]
  · intro parsed targetDir doc q m hitem hext hget
    simp only [resolve_markdown_path, hitem, hext, hget]

/-- Witness for C5: resolution against the concrete one-anchor listing. -/
theorem C5_resolve_markdown_path_spec_witness :
    resolve_markdown_path ⟨"serde", none⟩ "target" errorAnchorPage
      = .ok ("target" ++ "/docmd/" ++ "serde" ++ "/index.md")
  ∧ resolve_markdown_path ⟨"lib", some "Error"⟩ "target" errorAnchorPage
      = .ok ("target" ++ "/docmd/" ++ "lib" ++ "/" ++ with_extension_md "struct.Error.html")
  ∧ resolve_markdown_path ⟨"lib", some "Nope"⟩ "target" errorAnchorPage
      = .error ("could not resolve item path '" ++ ("lib" ++ "::" ++ "Nope")
          ++ "'. Please ensure the item exists in the crate and try: `cargo txt build "
          ++ "lib" ++ "`") :=
  ⟨C5_resolve_markdown_path_spec.1 ⟨"serde", none⟩ "target" errorAnchorPage rfl,
   C5_resolve_markdown_path_spec.2.1 ⟨"lib", some "Error"⟩ "target" errorAnchorPage
     "Error" [("lib::Error", "struct.Error.html")] "struct.Error.html" rfl (by decide) (by decide),
   C5_resolve_markdown_path_spec.2.2.1 ⟨"lib", some "Nope"⟩ "target" errorAnchorPage
     "Nope" [("lib::Error", "struct.Error.html")] rfl (by decide) (by decide)⟩

/-! ## The skip-list (C6) -/

/-- Counterexample for C6 as stated: a skip-listed element IS rendered when
it is a list item — `convert_list` dispatches on `li` children without
consulting `should_skip_node`, so the content of
`<li class="tooltip">secret</li>` appears in the output. -/
theorem C6_counterexample :
    shouldSkipNode "li" [("class", "tooltip")] = true
  ∧ convert tooltipLiPage = .ok "- secret\n\n"
  ∧ strContains "- secret\n\n" "secret" = true := by
  refine ⟨by decide, by decide, by decide⟩

/-- Claim C6, amended — Whenever an element is converted through the general
node dispatch (`convert_node`), a skip-listed element contributes nothing
to the output, and the skip-list covers `<script>`, `<wbr>`,
`<rustdoc-toolbar>`, the `copy-path` / `implementors` /
`implementors-list` ids, and any class containing `src`,
`rustdoc-breadcrumbs` or a `tooltip` marker; however `li` children of
lists and `dt`/`dd` children of definition lists are emitted without this
check (see the counterexample). -/
theorem C6_skip_list_spec :
    (∀ (parent name : String) (attrs : List (String × String)) (children : List Node),
      shouldSkipNode name attrs = true →
      convertNode parent (.elem name attrs children) = "")
  ∧ (∀ attrs : List (String × String), shouldSkipNode "script" attrs = true)
  ∧ (∀ attrs : List (String × String), shouldSkipNode "wbr" attrs = true)
  ∧ (∀ attrs : List (String × String), shouldSkipNode "rustdoc-toolbar" attrs = true)
  ∧ (∀ (name : String) (rest : List (String × String)),
      shouldSkipNode name (("id", "copy-path") :: rest) = true)
  ∧ (∀ (name : String) (rest : List (String × String)),
      shouldSkipNode name (("id", "implementors") :: rest) = true)
  ∧ (∀ (name : String) (rest : List (String × String)),
      shouldSkipNode name (("id", "implementors-list") :: rest) = true)
  ∧ (∀ (name c : String) (rest : List (String × String)),
      strContains c "tooltip" = true →
      shouldSkipNode name (("class", c) :: rest) = true)
  ∧ (∀ (name c : String) (rest : List (String × String)),
      strContains c "src" = true →
      shouldSkipNode name (("class", c) :: rest) = true)
  ∧ (∀ (name c : String) (rest : List (String × String)),
      strContains c "rustdoc-breadcrumbs" = true →
      shouldSkipNode name (("class", c) :: rest) = true) := by
  refine ⟨?_, ?_, ?_, ?_, ?_, ?_, ?_, ?_, ?_, ?_⟩
  · intro parent name attrs children h
    rw [convertNode, if_pos h]
  · intro attrs
    simp [shouldSkipNode]
  · intro attrs
    simp [shouldSkipNode]
  · intro attrs
    simp [shouldSkipNode]
  · intro name rest
    have hid : getAttr (("id", "copy-path") :: rest) "id" = some "copy-path" := rfl
    simp [shouldSkipNode, hid]
  · intro name rest
    have hid : getAttr (("id", "implementors") :: rest) "id" = some "implementors" := rfl
    simp [shouldSkipNode, hid]
  · intro name rest
    have hid : getAttr (("id", "implementors-list") :: rest) "id" = some "implementors-list" := rfl
    simp [shouldSkipNode, hid]
  · intro name c rest h
    have hcl : getAttr (("class", c) :: rest) "class" = some c := rfl
    simp [shouldSkipNode, hcl, h]
  · intro name c rest h
    have hcl : getAttr (("class", c) :: rest) "class" = some c := rfl
    simp [shouldSkipNode, hcl, h]
  · intro name c rest h
    have hcl : getAttr (("class", c) :: rest) "class" = some c := rfl
    simp [shouldSkipNode, hcl, h]

/-- Witness for C6: the skip clauses instantiated at concrete elements. -/
theorem C6_skip_list_spec_witness :
    convertNode "body" (.elem "script" [("type", "text/json")] [.text "secret"]) = ""
  ∧ shouldSkipNode "a" [("class", "tooltip")] = true
  ∧ shouldSkipNode "button" [("id", "copy-path")] = true :=
  ⟨C6_skip_list_spec.1 "body" "script" [("type", "text/json")] [.text "secret"]
      (C6_skip_list_spec.2.1 [("type", "text/json")]),
   C6_skip_list_spec.2.2.2.2.2.2.2.1 "a" "tooltip" [] (by decide),
   C6_skip_list_spec.2.2.2.2.1 "button" []⟩

/-! ## The union safety note (C9) -/

/-- Claim C9 — The rendered Markdown of every union places the fixed safety
note immediately after the description section and before the fields
section, unconditionally — in particular also when the union has no
documentation and no fields; the note states that field access requires
unsafe code and that reading a field other than the one most recently
written is undefined behavior. -/
theorem C9_union_safety_note_spec :
    (∀ (item : RItem) (u : RUnion) (itemMap : List (Nat × RItem)),
      generate_union_content item u itemMap
        = render_header 1 (item.name.getD "Anonymous") ++ "\n"
          ++ (if (render_documentation item.docs).isEmpty then ""
              else "\n" ++ render_documentation item.docs ++ "\n")
          ++ "\n" ++ generate_safety_note
          ++ (if (generate_fields_section u.fields itemMap).isEmpty then ""
              else "\n" ++ generate_fields_section u.fields itemMap)
          ++ (if (generate_generics_section u.generics).isEmpty then ""
              else "\n" ++ generate_generics_section u.generics)
          ++ (if (generate_next_actions item).isEmpty then ""
              else "\n" ++ generate_next_actions item))
  ∧ strContains generate_safety_note "unsafe" = true
  ∧ strContains generate_safety_note "most recently written" = true
  ∧ strContains generate_safety_note "undefined behavior" = true
  ∧ strContains
      (generate_union_content ⟨0, none, none, RVisibility.default, RItemEnum.other⟩
        ⟨⟨[]⟩, []⟩ [])
      "undefined behavior" = true := by
  refine ⟨fun item u m => rfl, by decide, by decide, by decide, by decide⟩

/-! ## Whitespace normalization facts (C7) -/

theorem mem_of_head?_eq {l : List Char} {a : Char} (h : l.head? = some a) : a ∈ l := by
  cases l with
  | nil => simp at h
  | cons b t =>
    simp only [List.head?_cons, Option.some.injEq] at h
    subst h
    exact List.mem_cons_self _ _

theorem mem_of_getLast?_eq {l : List Char} {a : Char} (h : l.getLast? = some a) : a ∈ l := by
  have hx : a ∈ l.getLast? := Option.mem_def.mpr h
  obtain ⟨hne, heq⟩ := List.mem_getLast?_eq_getLast hx
  rw [heq]
  exact List.getLast_mem hne

/-- Every word produced by the whitespace splitter is non-empty and free of
whitespace characters. -/
theorem wsWordsGo_sound :
    ∀ (l cur : List Char), cur.all (fun c => !c.isWhitespace) = true →
    ∀ w ∈ wsWordsGo cur l, w ≠ [] ∧ w.all (fun c => !c.isWhitespace) = true := by
  intro l
  induction l with
  | nil =>
    intro cur hcur w hw
    rw [wsWordsGo] at hw
    by_cases hc : cur.isEmpty = true
    · rw [if_pos hc] at hw
      simp at hw
    · rw [if_neg hc] at hw
      simp only [List.mem_singleton] at hw
      subst hw
      refine ⟨?_, by rw [List.all_reverse]; exact hcur⟩
      simp only [ne_eq, List.reverse_eq_nil_iff]
      intro h0
      rw [h0] at hc
      exact hc rfl
  | cons c rest ih =>
    intro cur hcur w hw
    rw [wsWordsGo] at hw
    by_cases hws : c.isWhitespace = true
    · rw [if_pos hws] at hw
      by_cases hc : cur.isEmpty = true
      · rw [if_pos hc] at hw
        exact ih [] (by simp) w hw
      · rw [if_neg hc] at hw
        rcases List.mem_cons.mp hw with rfl | hw'
        · refine ⟨?_, by rw [List.all_reverse]; exact hcur⟩
          simp only [ne_eq, List.reverse_eq_nil_iff]
          intro h0
          rw [h0] at hc
          exact hc rfl
        · exact ih [] (by simp) w hw'
    · rw [if_neg hws] at hw
      refine ih (c :: cur) ?_ w hw
      simp only [List.all_cons, Bool.and_eq_true]
      exact ⟨by simp [hws], hcur⟩

/-- The head of the joined word list is the head of its first word. -/
theorem joinWords_head_nonws :
    ∀ ws : List (List Char),
    (∀ w ∈ ws, w ≠ [] ∧ w.all (fun c => !c.isWhitespace) = true) →
    ∀ c, (joinWords ws).head? = some c → c.isWhitespace = false := by
  intro ws
  induction ws with
  | nil => intro _ c hc; simp [joinWords] at hc
  | cons w ws' ih =>
    intro hall c hc
    obtain ⟨hne, hnws⟩ := hall w (List.mem_cons_self _ _)
    cases ws' with
    | nil =>
      simp only [joinWords] at hc
      have := List.all_eq_true.mp hnws c (mem_of_head?_eq hc)
      simpa using this
    | cons w2 ws'' =>
      simp only [joinWords, List.head?_append] at hc
      cases hw : w.head? with
      | none =>
        rw [List.head?_eq_none_iff] at hw
        exact absurd hw hne
      | some b =>
        rw [hw] at hc
        simp only [Option.or_some, Option.some.injEq] at hc
        subst hc
        have := List.all_eq_true.mp hnws b (mem_of_head?_eq hw)
        simpa using this

/-- The last character of the joined word list is the last character of its
last word. -/
theorem joinWords_getLast_nonws :
    ∀ ws : List (List Char),
    (∀ w ∈ ws, w ≠ [] ∧ w.all (fun c => !c.isWhitespace) = true) →
    ∀ c, (joinWords ws).getLast? = some c → c.isWhitespace = false := by
  intro ws
  induction ws with
  | nil => intro _ c hc; simp [joinWords] at hc
  | cons w ws' ih =>
    intro hall c hc
    obtain ⟨hne, hnws⟩ := hall w (List.mem_cons_self _ _)
    cases ws' with
    | nil =>
      simp only [joinWords] at hc
      have := List.all_eq_true.mp hnws c (mem_of_getLast?_eq hc)
      simpa using this
    | cons w2 ws'' =>
      simp only [joinWords, List.getLast?_append] at hc
      have hall' : ∀ v ∈ w2 :: ws'', v ≠ [] ∧ v.all (fun ch => !ch.isWhitespace) = true :=
        fun v hv => hall v (List.mem_cons_of_mem _ hv)
      have hjne : joinWords (w2 :: ws'') ≠ [] := by
        obtain ⟨hne2, _⟩ := hall' w2 (List.mem_cons_self _ _)
        cases ws'' with
        | nil => simpa [joinWords] using hne2
        | cons w3 ws3 =>
          simp only [joinWords, ne_eq, List.append_eq_nil]
          intro ⟨h1, _⟩
          exact hne2 h1
      cases hl : (' ' :: joinWords (w2 :: ws'')).getLast? with
      | none =>
        rw [List.getLast?_eq_none_iff] at hl
        simp at hl
      | some b =>
        rw [hl] at hc
        simp only [Option.or_some, Option.some.injEq] at hc
        subst hc
        have hl2 : (joinWords (w2 :: ws'')).getLast? = some b := by
          cases hj : joinWords (w2 :: ws'') with
          | nil => exact absurd hj hjne
          | cons x xs =>
            rw [hj, List.getLast?_cons_cons] at hl
            exact hl
        exact ih hall' b hl2

/-- Whitespace-free words joined by single spaces never contain two
adjacent whitespace characters. -/
theorem joinWords_chain :
    ∀ ws : List (List Char),
    (∀ w ∈ ws, w ≠ [] ∧ w.all (fun c => !c.isWhitespace) = true) →
    List.Chain' (fun a b => a.isWhitespace = false ∨ b.isWhitespace = false)
      (joinWords ws) := by
  intro ws
  induction ws with
  | nil => intro _; simp [joinWords]
  | cons w ws' ih =>
    intro hall
    obtain ⟨hne, hnws⟩ := hall w (List.mem_cons_self _ _)
    have hwchain : List.Chain' (fun a b => a.isWhitespace = false ∨ b.isWhitespace = false) w := by
      clear hall ih hne
      induction w with
      | nil => simp
      | cons a w' ihw =>
        simp only [List.all_cons, Bool.and_eq_true] at hnws
        rw [List.chain'_cons']
        refine ⟨fun y _ => Or.inl (by simpa using hnws.1), ihw hnws.2⟩
    cases ws' with
    | nil => simpa [joinWords] using hwchain
    | cons w2 ws'' =>
      have hall' : ∀ v ∈ w2 :: ws'', v ≠ [] ∧ v.all (fun ch => !ch.isWhitespace) = true :=
        fun v hv => hall v (List.mem_cons_of_mem _ hv)
      show List.Chain' _ (w ++ ' ' :: joinWords (w2 :: ws''))
      rw [List.chain'_append]
      refine ⟨hwchain, ?_, ?_⟩
      · rw [List.chain'_cons']
        refine ⟨?_, ih hall'⟩
        intro y hy
        exact Or.inr (joinWords_head_nonws (w2 :: ws'') hall' y hy)
      · intro x hx y hy
        refine Or.inl ?_
        have hxmem : x ∈ w := mem_of_getLast?_eq (Option.mem_def.mp hx)
        have := List.all_eq_true.mp hnws x hxmem
        simpa using this

/-- Claim C7 — Heading and paragraph elements (when not skip-listed) emit
their children's content with interior whitespace collapsed to single
spaces, terminated by exactly one blank line; the normalized content never
contains two adjacent whitespace characters and never starts or ends with
whitespace. -/
theorem C7_whitespace_normalization_spec :
    (∀ (parent : String) (attrs : List (String × String)) (children : List Node),
      shouldSkipNode "p" attrs = false →
      convertNode parent (.elem "p" attrs children)
        = normalizeWs (convertChildren "p" children) ++ "\n\n")
  ∧ (∀ (parent : String) (attrs : List (String × String)) (children : List Node),
      shouldSkipNode "h1" attrs = false →
      convertNode parent (.elem "h1" attrs children)
        = "# " ++ normalizeWs (convertChildren "h1" children) ++ "\n\n")
  ∧ (∀ (parent : String) (attrs : List (String × String)) (children : List Node),
      shouldSkipNode "h2" attrs = false →
      convertNode parent (.elem "h2" attrs children)
        = "## " ++ normalizeWs (convertChildren "h2" children) ++ "\n\n")
  ∧ (∀ (parent : String) (attrs : List (String × String)) (children : List Node),
      shouldSkipNode "h3" attrs = false →
      convertNode parent (.elem "h3" attrs children)
        = "### " ++ normalizeWs (convertChildren "h3" children) ++ "\n\n")
  ∧ (∀ (parent : String) (attrs : List (String × String)) (children : List Node),
      shouldSkipNode "h4" attrs = false →
      convertNode parent (.elem "h4" attrs children)
        = "#### " ++ normalizeWs (convertChildren "h4" children) ++ "\n\n")
  ∧ (∀ (parent : String) (attrs : List (String × String)) (children : List Node),
      shouldSkipNode "h5" attrs = false →
      convertNode parent (.elem "h5" attrs children)
        = "##### " ++ normalizeWs (convertChildren "h5" children) ++ "\n\n")
  ∧ (∀ (parent : String) (attrs : List (String × String)) (children : List Node),
      shouldSkipNode "h6" attrs = false →
      convertNode parent (.elem "h6" attrs children)
        = "###### " ++ normalizeWs (convertChildren "h6" children) ++ "\n\n")
  ∧ (∀ s : String,
      List.Chain' (fun a b => a.isWhitespace = false ∨ b.isWhitespace = false)
        (normalizeWs s).toList
      ∧ (∀ c, (normalizeWs s).toList.head? = some c → c.isWhitespace = false)
      ∧ (∀ c, (normalizeWs s).toList.getLast? = some c → c.isWhitespace = false)) := by
  refine ⟨?_, ?_, ?_, ?_, ?_, ?_, ?_, ?_⟩
  · intro parent attrs children h
    simp [convertNode, h]
  · intro parent attrs children h
    simp [convertNode, h]
  · intro parent attrs children h
    simp [convertNode, h]
  · intro parent attrs children h
    simp [convertNode, h]
  · intro parent attrs children h
    simp [convertNode, h]
  · intro parent attrs children h
    simp [convertNode, h]
  · intro parent attrs children h
    simp [convertNode, h]
  · intro s
    have hwords := wsWordsGo_sound s.toList [] (by simp)
    have hlist : (normalizeWs s).toList = joinWords (wsWords s.toList) := rfl
    rw [hlist]
    exact ⟨joinWords_chain _ hwords,
      fun c hc => joinWords_head_nonws _ hwords c hc,
      fun c hc => joinWords_getLast_nonws _ hwords c hc⟩

/-- Witness for C7: the paragraph clause applied to a concrete indented
multi-line paragraph. -/
theorem C7_whitespace_normalization_spec_witness :
    convertNode "body" (.elem "p" [] [.text "  a \n\t b  "])
      = normalizeWs (convertChildren "p" [.text "  a \n\t b  "]) ++ "\n\n" :=
  C7_whitespace_normalization_spec.1 "body" [] [.text "  a \n\t b  "] (by decide)

/-! ## The variants table of a type alias (C8) -/

/-- Counterexample for C8 as stated: for an alias of the two-variant,
two-parameter enum `Either<L, R>` (variants `Left`/`Right`) with `i32` and
the concrete `Error` type substituted, the rendered table has two rows but
shows the literal fallback `T` in the Type column instead of the
substituted types — `get_variant_type_from_alias` only recognises variants
named `Ok` and `Err`. -/
theorem C8_counterexample :
    generate_variants_table eitherAliasType eitherIdx
      = "## Variants\n\n| Variant | Type    | Description                |\n| ------- | ------- | -------------------------- |\n| `Left`    | `T`     |  |\n| `Right`    | `T`     |  |\n\n"
  ∧ renderTypePlain (.primitive "i32") = "i32"
  ∧ strContains (generate_variants_table eitherAliasType eitherIdx) "i32" = false := by
  refine ⟨by decide, by decide, by decide⟩

/-- Claim C8, amended — For a type alias whose aliased type is a two-variant,
two-parameter enum in the crate index whose tuple variants are named `Ok`
and `Err` (a `Result`-like enum), with types substituted for the two
generic arguments and rendering non-emptily, the Variants table has exactly
two rows, one per variant: the `Ok` row shows the rendered first argument
and the `Err` row the rendered second argument (backtick-trimmed); for
variants under any other name the Type column falls back to the literal
`T` (see the counterexample). -/
theorem C8_variants_table_spec
    (p : String) (aid : Nat) (t1 t2 : RType) (idx : List (Nat × RItem))
    (id1 id2 : Nat) (eid : Nat) (ename edocs : Option String) (evis : RVisibility)
    (impls : List Nat)
    (okId errId : Nat) (okDocs errDocs : Option String) (okVis errVis : RVisibility)
    (okFields errFields : List (Option Nat)) (okDisc errDisc : Option String)
    (he : idxGet idx aid = some ⟨eid, ename, edocs, evis, .enumItem [id1, id2] impls⟩)
    (h1 : idxGet idx id1
      = some ⟨okId, some "Ok", okDocs, okVis, .variantItem (.tuple okFields) okDisc⟩)
    (h2 : idxGet idx id2
      = some ⟨errId, some "Err", errDocs, errVis, .variantItem (.tuple errFields) errDisc⟩)
    (ht1 : (renderTypePlain t1).isEmpty = false)
    (ht2 : (renderTypePlain t2).isEmpty = false) :
    generate_variants_table
        (.resolvedPath p aid (some (.angleBracketed [.type t1, .type t2]))) idx
      = "## Variants\n\n| Variant | Type    | Description                |\n| ------- | ------- | -------------------------- |\n"
        ++ ("| `Ok`    | `" ++ trimTicks (renderTypePlain t1) ++ "`     | "
            ++ (okDocs.map firstLine).getD "" ++ " |\n")
        ++ ("| `Err`    | `" ++ trimTicks (renderTypePlain t2) ++ "`     | "
            ++ (errDocs.map firstLine).getD "" ++ " |\n")
        ++ "\n" := by
  have hok : get_variant_type_from_alias
      (.resolvedPath p aid (some (.angleBracketed [.type t1, .type t2]))) "Ok"
      = renderTypePlain t1 := by
    simp [get_variant_type_from_alias]
  have herr : get_variant_type_from_alias
      (.resolvedPath p aid (some (.angleBracketed [.type t1, .type t2]))) "Err"
      = renderTypePlain t2 := by
    simp [get_variant_type_from_alias]
  simp only [generate_variants_table, he, variantRows, h1, h2, hok, herr,
    ht1, Bool.false_eq_true, if_false, ht2, Option.getD_some]
  cases okDocs <;> cases errDocs <;> simp [String.append_assoc]

/-- Witness for C8: the amended clause applied to the `serde_json::Result`
fixture. -/
theorem C8_variants_table_spec_witness :
    generate_variants_table
        (.resolvedPath "core::result::Result" 100
          (some (.angleBracketed
            [.type (.generic "T"), .type (.resolvedPath "Error" 200 none)]))) resultIdx
      = "## Variants\n\n| Variant | Type    | Description                |\n| ------- | ------- | -------------------------- |\n"
        ++ ("| `Ok`    | `" ++ trimTicks (renderTypePlain (.generic "T")) ++ "`     | "
            ++ ((some "Contains success value" : Option String).map firstLine).getD "" ++ " |\n")
        ++ ("| `Err`    | `" ++ trimTicks (renderTypePlain (.resolvedPath "Error" 200 none)) ++ "`     | "
            ++ ((some "Contains error value" : Option String).map firstLine).getD "" ++ " |\n")
        ++ "\n" :=
  C8_variants_table_spec "core::result::Result" 100 (.generic "T")
    (.resolvedPath "Error" 200 none) resultIdx 101 102 100 (some "Result") none
    RVisibility.public [] 101 102 (some "Contains success value")
    (some "Contains error value") RVisibility.public RVisibility.public
    [some 103] [some 104] none none rfl rfl rfl (by decide) (by decide)

end CargoTxt
